import Mathlib

/-!
# Verification of the ThermoMater extraction pipeline and review workflow

Shallow embedding of the repository's core:

* `utils/processImage.ts` — `cropImage`, `recognizeText`,
  `extractNumbers` (the regex `\d+(?:\.\d+)?` scanned globally) and the
  orchestrator `processImageAndExtractNumbers`.
* `components/NumberExtractorComponent.tsx` — the review workflow: the
  component's hook state (`allExtractedNumbers`, `displayedNumbers`,
  `loading`, `isModifyingNumbers`, `numberInput1/2`, `showStartButton`),
  its event handlers, and the `renderContent` projection.

External capabilities (the image manipulator and the OCR engine) are
modelled as `Except`-valued inputs: the embedding is parametric in their
outcomes, exactly as the TypeScript code is parametric in what the
awaited promises deliver.
-/

namespace ThermoMater

/-! ## NumberExtractor: the regex scanner

`text.match(/\d+(?:\.\d+)?/g)` scans left to right; at each position the
engine greedily takes a maximal digit run, then, if a dot followed by at
least one digit comes next, the dot and a maximal digit run after it.
On failure at a position it advances one character; after a match it
resumes right after the match.  `digitRun` is the greedy `\d+`/`\d*`
step, `matchNum` one anchored attempt of the whole pattern, `scanAux`
the global scan. -/

/-- Greedy maximal digit run: splits a character list into its longest
all-digit prefix and the remainder. -/
def digitRun : List Char → List Char × List Char
  | [] => ([], [])
  | c :: cs =>
    if c.isDigit then
      let p := digitRun cs
      (c :: p.1, p.2)
    else ([], c :: cs)

/-- One anchored attempt of `\d+(?:\.\d+)?` at the head of the input:
returns the matched characters and the rest, or `none` when the head is
not a digit. -/
def matchNum (cs : List Char) : Option (List Char × List Char) :=
  let p := digitRun cs
  if p.1.isEmpty then none
  else
    match p.2 with
    | c :: r2 =>
      if c = '.' then
        let q := digitRun r2
        if q.1.isEmpty then some (p.1, p.2)
        else some (p.1 ++ '.' :: q.1, q.2)
      else some (p.1, p.2)
    | [] => some (p.1, p.2)

theorem digitRun_decomp (cs : List Char) : (digitRun cs).1 ++ (digitRun cs).2 = cs := by
  induction cs with
  | nil => rfl
  | cons c cs ih =>
    by_cases h : c.isDigit
    · simp [digitRun, h, ih]
    · simp [digitRun, h]

theorem digitRun_all (cs : List Char) : (digitRun cs).1.all Char.isDigit = true := by
  induction cs with
  | nil => rfl
  | cons c cs ih =>
    by_cases h : c.isDigit
    · simp [digitRun, h, ih]
    · simp [digitRun, h]

theorem digitRun_max (cs : List Char) :
    ∀ a r, (digitRun cs).2 = a :: r → a.isDigit = false := by
  induction cs with
  | nil => intro a r h; simp [digitRun] at h
  | cons c cs ih =>
    intro a r h
    by_cases hc : c.isDigit
    · simp only [digitRun, hc, if_pos] at h
      exact ih a r h
    · simp only [digitRun, hc, Bool.false_eq_true, if_neg, not_false_iff] at h
      rw [List.cons_eq_cons] at h
      obtain ⟨h1, -⟩ := h
      simp [← h1, hc]

/-- Any all-digit decomposition prefix is a prefix of the greedy run. -/
theorem digitRun_prefix_of_digits (p q : List Char) (hp : p.all Char.isDigit = true) :
    p <+: (digitRun (p ++ q)).1 := by
  induction p with
  | nil => exact List.nil_prefix
  | cons c p ih =>
    simp only [List.all_cons, Bool.and_eq_true] at hp
    simp only [List.cons_append, digitRun, hp.1, if_pos]
    exact List.cons_prefix_cons.mpr ⟨rfl, ih hp.2⟩

theorem matchNum_eq {cs t r : List Char} (h : matchNum cs = some (t, r)) :
    t ++ r = cs ∧ t ≠ [] := by
  unfold matchNum at h
  by_cases he : (digitRun cs).1.isEmpty
  · simp [he] at h
  · have hne : (digitRun cs).1 ≠ [] := by
      intro hnil; rw [hnil] at he; simp at he
    simp only [he, Bool.false_eq_true, if_neg, not_false_iff] at h
    have hdec := digitRun_decomp cs
    rcases hd : (digitRun cs).2 with _ | ⟨c, r2⟩
    · rw [hd] at h hdec
      simp only [Option.some.injEq, Prod.mk.injEq] at h
      exact ⟨by rw [← h.1, ← h.2, hdec], h.1 ▸ hne⟩
    · rw [hd] at h hdec
      by_cases hdot : c = '.'
      · subst hdot
        simp only [if_pos rfl] at h
        by_cases hq : (digitRun r2).1.isEmpty
        · simp only [hq, if_pos] at h
          simp only [Option.some.injEq, Prod.mk.injEq] at h
          exact ⟨by rw [← h.1, ← h.2, hdec], h.1 ▸ hne⟩
        · rw [if_neg hq] at h
          simp only [if_true, Option.some.injEq, Prod.mk.injEq] at h
          constructor
          · rw [← h.1, ← h.2]
            have hq2 : (digitRun r2).1 ++ (digitRun r2).2 = r2 := digitRun_decomp r2
            calc ((digitRun cs).1 ++ '.' :: (digitRun r2).1) ++ (digitRun r2).2
                = (digitRun cs).1 ++ '.' :: ((digitRun r2).1 ++ (digitRun r2).2) := by
                  simp
              _ = (digitRun cs).1 ++ '.' :: r2 := by rw [hq2]
              _ = cs := hdec
          · rw [← h.1]; simp [hne]
      · simp only [if_neg hdot] at h
        simp only [Option.some.injEq, Prod.mk.injEq] at h
        exact ⟨by rw [← h.1, ← h.2, hdec], h.1 ▸ hne⟩

theorem matchNum_isSome (c : Char) (cs : List Char) (hc : c.isDigit = true) :
    (matchNum (c :: cs)).isSome = true := by
  unfold matchNum
  simp only [digitRun, hc, if_pos, List.isEmpty_cons, Bool.false_eq_true, if_neg,
    not_false_iff]
  split
  · split
    · split <;> simp
    · simp
  · simp

theorem matchNum_none {c : Char} {cs : List Char} (h : matchNum (c :: cs) = none) :
    c.isDigit = false := by
  by_contra hc
  simp only [Bool.not_eq_false] at hc
  have hs := matchNum_isSome c cs hc
  rw [h] at hs
  simp at hs

/-- The global scan of `/\d+(?:\.\d+)?/g`: take a match where one is
anchored, otherwise advance one character. -/
def scanAux (cs : List Char) : List (List Char) :=
  match h : matchNum cs with
  | some (t, r) =>
    have hlt : r.length < cs.length := by
      obtain ⟨heq, hne⟩ := matchNum_eq h
      have : t.length + r.length = cs.length := by
        rw [← heq]; simp
      have ht : 0 < t.length := List.length_pos.mpr hne
      omega
    t :: scanAux r
  | none =>
    match cs with
    | [] => []
    | _ :: cs' => scanAux cs'
termination_by cs.length
decreasing_by
  · exact hlt
  · simp

/-- `extractNumbers` from `utils/processImage.ts`:
`text.match(/\d+(?:\.\d+)?/g) ?? []`. -/
def extractNumbers (s : String) : List String :=
  (scanAux s.data).map String.mk

/-! ## Spec-side characterisation of the scan (§4.3 of the design)

`NumTok` transcribes the spec's token pattern: one or more digits,
optionally followed by a decimal point and one or more digits.
`SpecScan` transcribes the spec's algorithm sentence: scan left to
right, emit at each position the maximal token anchored there, never
overlap, keep order of first character position. -/

/-- Spec's numeric-token pattern digits(.digits)?. -/
def NumTok (t : List Char) : Prop :=
  ∃ d1, d1 ≠ [] ∧ d1.all Char.isDigit = true ∧
    (t = d1 ∨ ∃ d2, d2 ≠ [] ∧ d2.all Char.isDigit = true ∧ t = d1 ++ '.' :: d2)

/-- Spec's scan: maximal, greedy, non-overlapping, left-to-right. -/
inductive SpecScan : List Char → List (List Char) → Prop where
  | nil : SpecScan [] []
  | skip (c : Char) (cs : List Char) (toks : List (List Char)) :
      (∀ t r, c :: cs = t ++ r → ¬ NumTok t) →
      SpecScan cs toks → SpecScan (c :: cs) toks
  | tok (cs t r : List Char) (toks : List (List Char)) :
      NumTok t → cs = t ++ r →
      (∀ t' r', cs = t' ++ r' → NumTok t' → t'.length ≤ t.length) →
      SpecScan r toks → SpecScan cs (t :: toks)

theorem allDigit_prefix_length_le {p q cs : List Char} (hcs : p ++ q = cs)
    (hp : p.all Char.isDigit = true) : p.length ≤ (digitRun cs).1.length := by
  subst hcs
  exact (digitRun_prefix_of_digits p q hp).length_le

/-- If an all-digit block is followed by a literal dot, the block is
exactly the greedy digit run of the whole input. -/
theorem dot_align {p q cs : List Char} (hcs : p ++ '.' :: q = cs)
    (hp : p.all Char.isDigit = true) : p = (digitRun cs).1 := by
  subst hcs
  obtain ⟨s, hs⟩ := digitRun_prefix_of_digits p ('.' :: q) hp
  rcases s with _ | ⟨a, s'⟩
  · simpa using hs
  · exfalso
    have hda : a.isDigit = true := by
      have hall := digitRun_all (p ++ '.' :: q)
      rw [← hs] at hall
      simp only [List.all_append, List.all_cons, Bool.and_eq_true] at hall
      exact hall.2.1
    have hdecomp := digitRun_decomp (p ++ '.' :: q)
    rw [← hs] at hdecomp
    rw [List.append_assoc] at hdecomp
    have hcons := List.append_cancel_left hdecomp
    simp only [List.cons_append] at hcons
    have ha : a = '.' := (List.cons_eq_cons.mp hcons).1
    rw [ha] at hda
    exact absurd hda (by decide)

theorem matchNum_d1_ne {cs t r : List Char} (h : matchNum cs = some (t, r)) :
    (digitRun cs).1 ≠ [] := by
  unfold matchNum at h
  by_cases he : (digitRun cs).1.isEmpty
  · simp [he] at h
  · intro hnil; rw [hnil] at he; simp at he

/-- Shape of a successful anchored match: either the pure digit run (no
usable fraction follows) or the digit run, the dot, and the fraction
digit run. -/
theorem matchNum_char {cs t r : List Char} (h : matchNum cs = some (t, r)) :
    (t = (digitRun cs).1 ∧ ∀ r2, (digitRun cs).2 = '.' :: r2 → (digitRun r2).1 = []) ∨
    (∃ r2, (digitRun cs).2 = '.' :: r2 ∧ (digitRun r2).1 ≠ [] ∧
      t = (digitRun cs).1 ++ '.' :: (digitRun r2).1) := by
  unfold matchNum at h
  by_cases he : (digitRun cs).1.isEmpty
  · simp [he] at h
  · simp only [he, Bool.false_eq_true, if_neg, not_false_iff] at h
    rcases hd : (digitRun cs).2 with _ | ⟨c, r2⟩
    · rw [hd] at h
      simp only [Option.some.injEq, Prod.mk.injEq] at h
      refine Or.inl ⟨h.1.symm, ?_⟩
      intro r2 hr2
      simp at hr2
    · rw [hd] at h
      by_cases hdot : c = '.'
      · subst hdot
        simp only [if_pos rfl] at h
        by_cases hq : (digitRun r2).1.isEmpty
        · simp only [hq, if_pos] at h
          simp only [Option.some.injEq, Prod.mk.injEq] at h
          refine Or.inl ⟨h.1.symm, ?_⟩
          intro r2' hr2'
          have hrr : r2' = r2 := (List.cons_eq_cons.mp hr2').2.symm
          rw [hrr]
          exact List.isEmpty_iff.mp hq
        · rw [if_neg hq] at h
          simp only [if_true, Option.some.injEq, Prod.mk.injEq] at h
          refine Or.inr ⟨r2, rfl, ?_, h.1.symm⟩
          intro hnil; rw [hnil] at hq; simp at hq
      · simp only [if_neg hdot] at h
        simp only [Option.some.injEq, Prod.mk.injEq] at h
        refine Or.inl ⟨h.1.symm, ?_⟩
        intro r2' hr2'
        exact absurd (List.cons_eq_cons.mp hr2').1 hdot

theorem matchNum_numTok {cs t r : List Char} (h : matchNum cs = some (t, r)) :
    NumTok t := by
  have hne := matchNum_d1_ne h
  rcases matchNum_char h with ⟨ht, -⟩ | ⟨r2, hr2, hq, ht⟩
  · exact ⟨(digitRun cs).1, hne, digitRun_all cs, Or.inl ht⟩
  · exact ⟨(digitRun cs).1, hne, digitRun_all cs,
      Or.inr ⟨(digitRun r2).1, hq, digitRun_all r2, ht⟩⟩

/-- Greedy anchored matching is maximal: no token anchored at the same
position is longer than the one `matchNum` returns. -/
theorem matchNum_maximal {cs t r : List Char} (h : matchNum cs = some (t, r))
    (t' r' : List Char) (hcs : cs = t' ++ r') (ht' : NumTok t') :
    t'.length ≤ t.length := by
  obtain ⟨d1', hne', hall', hform⟩ := ht'
  have hd1le : (digitRun cs).1.length ≤ t.length := by
    rcases matchNum_char h with ⟨ht, -⟩ | ⟨r2, hr2, hq, ht⟩
    · rw [ht]
    · rw [ht]; simp
  rcases hform with rfl | ⟨d2', hne2', hall2', rfl⟩
  · have := allDigit_prefix_length_le hcs.symm hall'
    omega
  · have hcs' : d1' ++ '.' :: (d2' ++ r') = cs := by
      rw [hcs]; simp
    have halign : d1' = (digitRun cs).1 := dot_align hcs' hall'
    have hr1 : (digitRun cs).2 = '.' :: (d2' ++ r') := by
      have hdec := digitRun_decomp cs
      have h2 : (digitRun cs).1 ++ (digitRun cs).2 =
          (digitRun cs).1 ++ '.' :: (d2' ++ r') := by
        rw [hdec, ← halign]
        exact hcs'.symm
      exact List.append_cancel_left h2
    rcases matchNum_char h with ⟨ht, hnofrac⟩ | ⟨r2, hr2, hq, ht⟩
    · exfalso
      have hzero := hnofrac (d2' ++ r') hr1
      have hpre := digitRun_prefix_of_digits d2' r' hall2'
      rw [hzero] at hpre
      exact hne2' (List.prefix_nil.mp hpre)
    · have hr2eq : r2 = d2' ++ r' := by
        rw [hr2] at hr1
        exact (List.cons_eq_cons.mp hr1).2
      have hle2 : d2'.length ≤ (digitRun r2).1.length := by
        rw [hr2eq]
        exact (digitRun_prefix_of_digits d2' r' hall2').length_le
      rw [ht, ← halign]
      simp only [List.length_append, List.length_cons]
      omega

theorem matchNum_none_of {c : Char} (cs : List Char) (hc : c.isDigit = false) :
    matchNum (c :: cs) = none := by
  unfold matchNum
  simp [digitRun, hc]

theorem scanAux_nil : scanAux [] = [] := by
  rw [scanAux.eq_def]
  split
  · rename_i t r h'
    simp [matchNum, digitRun] at h'
  · rfl

theorem scanAux_some {cs t r : List Char} (h : matchNum cs = some (t, r)) :
    scanAux cs = t :: scanAux r := by
  rw [scanAux.eq_def]
  split
  · rename_i t' r' h'
    rw [h] at h'
    simp only [Option.some.injEq, Prod.mk.injEq] at h'
    rw [h'.1, h'.2]
  · rename_i h'
    rw [h] at h'
    cases h'

theorem scanAux_none_cons {c : Char} {cs : List Char} (h : matchNum (c :: cs) = none) :
    scanAux (c :: cs) = scanAux cs := by
  rw [scanAux.eq_def]
  split
  · rename_i t r h'
    rw [h] at h'
    cases h'
  · rfl

/-- The global scan satisfies the spec's scan relation. -/
theorem specScan_scanAux (cs : List Char) : SpecScan cs (scanAux cs) := by
  have H : ∀ n, ∀ cs : List Char, cs.length ≤ n → SpecScan cs (scanAux cs) := by
    intro n
    induction n with
    | zero =>
      intro cs hlen
      have hnil : cs = [] := List.length_eq_zero.mp (Nat.le_zero.mp hlen)
      rw [hnil, scanAux_nil]
      exact SpecScan.nil
    | succ n ih =>
      intro cs hlen
      rcases hm : matchNum cs with _ | ⟨t, r⟩
      · rcases cs with _ | ⟨c, cs'⟩
        · rw [scanAux_nil]; exact SpecScan.nil
        · rw [scanAux_none_cons hm]
          have hc := matchNum_none hm
          refine SpecScan.skip c cs' _ ?_ (ih cs' ?_)
          · intro t r htr hnt
            obtain ⟨d1, hned, halld, hform⟩ := hnt
            rcases d1 with _ | ⟨a, d1'⟩
            · exact hned rfl
            · simp only [List.all_cons, Bool.and_eq_true] at halld
              have hta : ∃ ts, t = a :: ts := by
                rcases hform with rfl | ⟨d2, -, -, rfl⟩
                · exact ⟨d1', rfl⟩
                · exact ⟨d1' ++ '.' :: d2, rfl⟩
              obtain ⟨ts, rfl⟩ := hta
              simp only [List.cons_append] at htr
              have hca : c = a := (List.cons_eq_cons.mp htr).1
              rw [hca, halld.1] at hc
              cases hc
          · simp only [List.length_cons] at hlen; omega
      · rw [scanAux_some hm]
        obtain ⟨heq, hne⟩ := matchNum_eq hm
        refine SpecScan.tok cs t r _ (matchNum_numTok hm) heq.symm
          (fun t' r' h1 h2 => matchNum_maximal hm t' r' h1 h2) (ih r ?_)
        have hsum : t.length + r.length = cs.length := by rw [← heq]; simp
        have hpos : 0 < t.length := List.length_pos.mpr hne
        omega
  exact H cs.length cs le_rfl

theorem scanAux_no_digit {cs : List Char} (h : ∀ c ∈ cs, c.isDigit = false) :
    scanAux cs = [] := by
  induction cs with
  | nil => exact scanAux_nil
  | cons c cs ih =>
    rw [scanAux_none_cons (matchNum_none_of cs (h c (by simp)))]
    exact ih fun a ha => h a (by simp [ha])

/-! ## The pipeline (`utils/processImage.ts`)

Each stage awaits an external capability whose outcome we pass in as an
`Except String` value (`.ok` = the promise resolved, `.error m` = it
rejected with message `m`).  `cropImage` and `recognizeText` catch the
capability's failure, log it, and throw a fresh `Error` with a fixed
message; `processImageAndExtractNumbers` catches any stage error and
rethrows it wrapped as `Processing pipeline failed: <message>`. -/

/-- `cropImage`: on capability failure the original cause is only
logged; the thrown error is the fixed string. -/
def cropImage (capability : Except String String) : Except String String :=
  match capability with
  | .ok uri => .ok uri
  | .error _ => .error "Image cropping failed."

/-- `recognizeText`: same shape as `cropImage`. -/
def recognizeText (capability : Except String String) : Except String String :=
  match capability with
  | .ok text => .ok text
  | .error _ => .error "Text recognition failed."

/-- `processImageAndExtractNumbers`: crop, then OCR on the cropped URI,
then extract; any stage error is wrapped once. -/
def processImageAndExtractNumbers (cropCapability : Except String String)
    (ocrCapability : String → Except String String) : Except String (List String) :=
  match cropImage cropCapability with
  | .error m => .error ("Processing pipeline failed: " ++ m)
  | .ok croppedUri =>
    match recognizeText (ocrCapability croppedUri) with
    | .error m => .error ("Processing pipeline failed: " ++ m)
    | .ok ocrText => .ok (extractNumbers ocrText)

/-! ## The review workflow (`components/NumberExtractorComponent.tsx`)

The component's hook state, its handlers, and the `renderContent`
projection.  Output callbacks and alerts are modelled as a list of
emitted `Out` events.  `handleProcessImage` is split at its `await`:
`handleProcessImageStart` is everything before the promise settles,
`handleProcessImageComplete` the continuation applied to whatever the
component state is when the promise settles (there is no generation or
cancellation guard in the source). -/

/-- Observable outputs of the component: parent callbacks and alerts. -/
inductive Out where
  | extractionComplete (pair : String × String)
  | processReset
  | alertNoImage
  | alertExtractionFailed
  | alertProcessingError (msg : String)
  | alertInvalidInput
deriving DecidableEq, Repr

/-- The six `useState` hooks of `NumberExtractorComponent`. -/
structure ReviewState where
  allExtractedNumbers : List String
  displayedNumbers : Option (String × String)
  loading : Bool
  isModifyingNumbers : Bool
  numberInput1 : String
  numberInput2 : String
  showStartButton : Bool
deriving DecidableEq, Repr

/-- Hook initial values. -/
def initState : ReviewState :=
  { allExtractedNumbers := []
    displayedNumbers := none
    loading := false
    isModifyingNumbers := false
    numberInput1 := ""
    numberInput2 := ""
    showStartButton := false }

/-- The `useEffect` on `imageUri`: both branches set every hook back to
its initial value. -/
def resetEffect (s : ReviewState) : ReviewState :=
  { s with
    allExtractedNumbers := []
    displayedNumbers := none
    loading := false
    isModifyingNumbers := false
    numberInput1 := ""
    numberInput2 := ""
    showStartButton := false }

/-- `handleProcessImage` up to the `await`: guard on a missing URI, set
`loading`, clear previous results. -/
def handleProcessImageStart (imageUri : Option String) (s : ReviewState) :
    ReviewState × List Out :=
  match imageUri with
  | none => (s, [.alertNoImage])
  | some _ =>
    ({ s with
        loading := true
        allExtractedNumbers := []
        displayedNumbers := none
        isModifyingNumbers := false
        showStartButton := false }, [])

/-- The continuation of `handleProcessImage` after the pipeline promise
settles, applied to the component state live at that moment. -/
def handleProcessImageComplete (outcome : Except String (List String))
    (s : ReviewState) : ReviewState × List Out :=
  match outcome with
  | .ok numbers =>
    match numbers with
    | a :: b :: _ =>
      ({ s with
          allExtractedNumbers := numbers
          displayedNumbers := some (a, b)
          loading := false }, [])
    | _ =>
      ({ s with
          allExtractedNumbers := numbers
          displayedNumbers := none
          loading := false }, [.alertExtractionFailed, .processReset])
  | .error msg =>
    ({ s with displayedNumbers := none, loading := false },
      [.alertProcessingError msg, .processReset])

/-- `handleModifyNumbers`: only acts when a pair is displayed. -/
def handleModifyNumbers (s : ReviewState) : ReviewState :=
  match s.displayedNumbers with
  | some p =>
    { s with
        isModifyingNumbers := true
        numberInput1 := p.1
        numberInput2 := p.2
        showStartButton := false }
  | none => s

/-- `handleAcceptNumbers`: only acts when a pair is displayed. -/
def handleAcceptNumbers (s : ReviewState) : ReviewState :=
  match s.displayedNumbers with
  | some _ => { s with isModifyingNumbers := false, showStartButton := true }
  | none => s

/-- The characters JS `String.prototype.trim` strips: ECMA-262
WhiteSpace (TAB, VT, FF, SP, NBSP, Ogham space mark, the Zs block
U+2000..U+200A, NNBSP, MMSP, ideographic space, ZWNBSP) and
LineTerminator (LF, CR, LS, PS). -/
def isJsWhitespace (c : Char) : Bool :=
  c.val = 0x09 || c.val = 0x0A || c.val = 0x0B || c.val = 0x0C || c.val = 0x0D ||
  c.val = 0x20 || c.val = 0xA0 || c.val = 0x1680 ||
  (0x2000 ≤ c.val && c.val ≤ 0x200A) ||
  c.val = 0x2028 || c.val = 0x2029 || c.val = 0x202F || c.val = 0x205F ||
  c.val = 0x3000 || c.val = 0xFEFF

/-- JS `String.prototype.trim`: strip leading and trailing whitespace. -/
def trim (s : String) : String :=
  String.mk (((s.data.dropWhile isJsWhitespace).reverse.dropWhile
    isJsWhitespace).reverse)

/-- `handleSaveChanges`: trim both drafts; reject when either is empty,
otherwise promote the trimmed drafts to the displayed pair. -/
def handleSaveChanges (s : ReviewState) : ReviewState × List Out :=
  let trimmedInput1 := trim s.numberInput1
  let trimmedInput2 := trim s.numberInput2
  if trimmedInput1 = "" ∨ trimmedInput2 = "" then (s, [.alertInvalidInput])
  else
    ({ s with
        displayedNumbers := some (trimmedInput1, trimmedInput2)
        isModifyingNumbers := false
        showStartButton := true }, [])

/-- `handleCancelModification`: leave modification mode; the displayed
pair and the draft contents are untouched. -/
def handleCancelModification (s : ReviewState) : ReviewState :=
  { s with isModifyingNumbers := false }

/-- `handleStart`: hand the displayed pair to the parent. -/
def handleStart (s : ReviewState) : ReviewState × List Out :=
  match s.displayedNumbers with
  | some p => (s, [.extractionComplete p])
  | none => (s, [])

/-- `onChangeText` of the first input. -/
def setNumberInput1 (v : String) (s : ReviewState) : ReviewState :=
  { s with numberInput1 := v }

/-- `onChangeText` of the second input. -/
def setNumberInput2 (v : String) (s : ReviewState) : ReviewState :=
  { s with numberInput2 := v }

/-- What `renderContent` shows for a given state. -/
inductive Screen where
  | noImage
  | loader
  | insufficient (found : Nat)
  | processPrompt
  | awaitingDecision (pair : String × String)
  | modifying (v1 v2 : String)
  | ready (pair : String × String)
  | blank
deriving DecidableEq, Repr

/-- `renderContent`, branch for branch in source order. -/
def renderContent (imageUri : Option String) (s : ReviewState) : Screen :=
  match imageUri with
  | none => .noImage
  | some _ =>
    if s.loading then .loader
    else if s.displayedNumbers = none ∧ s.allExtractedNumbers.length < 2 then
      if 0 < s.allExtractedNumbers.length then .insufficient s.allExtractedNumbers.length
      else .processPrompt
    else
      match s.displayedNumbers with
      | some p =>
        if ¬ s.isModifyingNumbers ∧ ¬ s.showStartButton then .awaitingDecision p
        else if s.isModifyingNumbers then .modifying s.numberInput1 s.numberInput2
        else .ready p
      | none => .blank

/-! ## Event traces

A user-visible event feeds one handler; `run` threads the state and
concatenates the emitted outputs.  `procComplete` carries the outcome a
pipeline promise settles with — delivering it late (after a reset or a
newer `procStart`) models a stale run's continuation firing. -/

/-- One component event. -/
inductive UEvent where
  | newImage
  | procStart (imageUri : Option String)
  | procComplete (outcome : Except String (List String))
  | modify
  | accept
  | save
  | cancel
  | start
  | edit1 (v : String)
  | edit2 (v : String)

/-- Dispatch one event to its handler. -/
def step : UEvent → ReviewState → ReviewState × List Out
  | .newImage, s => (resetEffect s, [])
  | .procStart u, s => handleProcessImageStart u s
  | .procComplete o, s => handleProcessImageComplete o s
  | .modify, s => (handleModifyNumbers s, [])
  | .accept, s => (handleAcceptNumbers s, [])
  | .save, s => handleSaveChanges s
  | .cancel, s => (handleCancelModification s, [])
  | .start, s => handleStart s
  | .edit1 v, s => (setNumberInput1 v s, [])
  | .edit2 v, s => (setNumberInput2 v s, [])

/-- Run a trace of events. -/
def run : List UEvent → ReviewState → ReviewState × List Out
  | [], s => (s, [])
  | e :: es, s =>
    let p := step e s
    let q := run es p.1
    (q.1, p.2 ++ q.2)

/-- Whether an output is an `onExtractionComplete` invocation. -/
def isExtractionComplete : Out → Bool
  | .extractionComplete _ => true
  | _ => false

/-- Number of `onExtractionComplete` invocations in an output list. -/
def ccCount (outs : List Out) : Nat := outs.countP isExtractionComplete

/-- Whether an event is the `Start` button press. -/
def isStartEvent : UEvent → Bool
  | .start => true
  | _ => false

/-! ## Claims -/

/-- C1: `extractNumbers` returns exactly the maximal left-to-right
non-overlapping substrings matching digits(.digits)?, in order of first
character position (the `SpecScan` relation); it is a total function by
construction; the empty string and digit-free inputs yield the empty
sequence. -/
theorem extractNumbers_matches_spec :
    (∀ s : String, SpecScan s.data ((extractNumbers s).map String.data)) ∧
    extractNumbers "" = [] ∧
    ∀ s : String, (∀ c ∈ s.data, c.isDigit = false) → extractNumbers s = [] := by
  have hnil : ∀ s : String, (∀ c ∈ s.data, c.isDigit = false) → extractNumbers s = [] := by
    intro s h
    unfold extractNumbers
    rw [scanAux_no_digit h]
    rfl
  refine ⟨?_, hnil "" (by intro c hc; cases hc), hnil⟩
  intro s
  have hmap : (extractNumbers s).map String.data = scanAux s.data := by
    unfold extractNumbers
    rw [List.map_map]
    have hid : String.data ∘ String.mk = id := by funext l; rfl
    rw [hid, List.map_id]
  rw [hmap]
  exact specScan_scanAux s.data

/-- C1 witness: a concrete digit-free input yields the empty sequence. -/
theorem extractNumbers_matches_spec_witness :
    extractNumbers "no numbers here" = [] :=
  extractNumbers_matches_spec.2.2 "no numbers here" (by decide)

/-- C2: the source has no generation counter, so the claim fails: a
stale run's completion, delivered after a new image reset the state and
a newer run started, does mutate the live `ReviewState` — before
delivery the live state is run 2's processing state, after delivery it
displays run 1's numbers and `loading` is cleared. -/
theorem stale_completion_mutates_state :
    (run [UEvent.procStart (some "image1"), UEvent.newImage,
          UEvent.procStart (some "image2")] initState).1 =
      { initState with loading := true } ∧
    (run [UEvent.procStart (some "image1"), UEvent.newImage,
          UEvent.procStart (some "image2"),
          UEvent.procComplete (Except.ok ["36.6", "101.2"])] initState).1 ≠
      { initState with loading := true } ∧
    ((run [UEvent.procStart (some "image1"), UEvent.newImage,
           UEvent.procStart (some "image2"),
           UEvent.procComplete (Except.ok ["36.6", "101.2"])] initState).1).displayedNumbers =
      some ("36.6", "101.2") :=
  ⟨rfl, by decide, rfl⟩

/-- C3 counterexample: supplying a new image in a mid-review state does
not put the machine in `Processing` (the loader); it lands on the
process prompt, waiting for the user to press `Process Image`. -/
theorem new_image_not_processing :
    renderContent (some "newImage")
        (resetEffect
          { allExtractedNumbers := ["36.6", "101.2"]
            displayedNumbers := some ("36.6", "101.2")
            loading := false
            isModifyingNumbers := true
            numberInput1 := "40"
            numberInput2 := "99"
            showStartButton := false }) = Screen.processPrompt ∧
    Screen.processPrompt ≠ Screen.loader :=
  ⟨rfl, by decide⟩

/-- C3 amended: supplying a new image performs a full reset to the
initial state (discarding pair, drafts and flags), so the new cycle's
`AwaitingDecision` pair can only come from the new run's numbers;
`Processing` is entered only when the user presses `Process Image`. -/
theorem new_image_full_reset :
    (∀ s : ReviewState, resetEffect s = initState) ∧
    ∀ (s : ReviewState) (a b : String) (rest : List String),
      ((handleProcessImageComplete (Except.ok (a :: b :: rest))
          (handleProcessImageStart (some "newImage") (resetEffect s)).1).1).displayedNumbers =
        some (a, b) :=
  ⟨fun _ => rfl, fun _ _ _ _ => rfl⟩

/-- C4 counterexample: one successful cycle that reaches `Ready` and
then receives `Start` twice — `Start` leaves the state unchanged, so
the button stays live and `onExtractionComplete` is invoked twice, not
exactly once. -/
theorem start_reinvokes_callback :
    ccCount (run [UEvent.procStart (some "img"),
                  UEvent.procComplete (Except.ok ["36.6", "101.2"]),
                  UEvent.accept, UEvent.start, UEvent.start] initState).2 = 2 ∧
    (2 : Nat) ≠ 1 :=
  ⟨rfl, by decide⟩

/-- C4 amended: `onExtractionComplete` is invoked exactly once per
`Start` event received while a pair is displayed, and by no other
event; a cycle that reaches `Ready` and receives `Start` exactly once
therefore invokes it exactly once — but `Start` does not leave `Ready`,
so further `Start` events invoke it again. -/
theorem extraction_complete_per_start :
    (∀ (s : ReviewState) (e : UEvent),
      ccCount (step e s).2 =
        if isStartEvent e = true ∧ s.displayedNumbers.isSome = true then 1 else 0) ∧
    ccCount (run [UEvent.procStart (some "img"),
                  UEvent.procComplete (Except.ok ["36.6", "101.2"]),
                  UEvent.accept, UEvent.start] initState).2 = 1 := by
  refine ⟨?_, rfl⟩
  intro s e
  cases e with
  | newImage => simp [step, ccCount, isStartEvent]
  | procStart u =>
    cases u <;> simp [step, handleProcessImageStart, ccCount, isStartEvent,
      isExtractionComplete]
  | procComplete o =>
    cases o with
    | error m =>
      simp [step, handleProcessImageComplete, ccCount, isStartEvent, isExtractionComplete]
    | ok ns =>
      rcases ns with _ | ⟨a, ns⟩
      · simp [step, handleProcessImageComplete, ccCount, isStartEvent, isExtractionComplete]
      · rcases ns with _ | ⟨b, ns⟩ <;>
          simp [step, handleProcessImageComplete, ccCount, isStartEvent, isExtractionComplete]
  | modify => simp [step, ccCount, isStartEvent]
  | accept => simp [step, ccCount, isStartEvent]
  | save =>
    simp only [step, handleSaveChanges]
    split <;> simp [ccCount, isStartEvent, isExtractionComplete]
  | cancel => simp [step, ccCount, isStartEvent]
  | start =>
    simp only [step, handleStart]
    rcases hd : s.displayedNumbers with _ | p <;>
      simp [ccCount, isStartEvent, isExtractionComplete, hd]
  | edit1 v => simp [step, ccCount, isStartEvent]
  | edit2 v => simp [step, ccCount, isStartEvent]

/-- C5 counterexample: `cropImage` maps two different capability causes
to the same fixed failure, so the failure it raises cannot carry the
original cause (the cause is only logged). -/
theorem crop_failure_drops_cause :
    cropImage (Except.error "decode failed: ENOENT") =
      Except.error "Image cropping failed." ∧
    cropImage (Except.error "region out of bounds") =
      Except.error "Image cropping failed." ∧
    ("decode failed: ENOENT" : String) ≠ "region out of bounds" :=
  ⟨rfl, rfl, by decide⟩

/-- C5 amended: every stage failure is wrapped into a single pipeline
failure whose message identifies the failing stage via that stage's
fixed message (`Image cropping failed.` / `Text recognition failed.`),
which is what the wrapper carries; the capability's original cause is
dropped. -/
theorem pipeline_failure_identifies_stage :
    ∀ (m u t : String) (ocr : String → Except String String),
      processImageAndExtractNumbers (Except.error m) ocr =
        Except.error "Processing pipeline failed: Image cropping failed." ∧
      processImageAndExtractNumbers (Except.ok u) (fun _ => Except.error m) =
        Except.error "Processing pipeline failed: Text recognition failed." ∧
      processImageAndExtractNumbers (Except.ok u) (fun _ => Except.ok t) =
        Except.ok (extractNumbers t) :=
  fun _ _ _ _ => ⟨rfl, rfl, rfl⟩

/-- C6: in any state whose drafts trim to an empty value, `Save` emits
only the local invalid-input alert and changes nothing: the state (pair
and drafts included) is returned unchanged and no pipeline-level output
is produced. -/
theorem save_empty_draft_rejected (s : ReviewState)
    (h : trim s.numberInput1 = "" ∨ trim s.numberInput2 = "") :
    handleSaveChanges s = (s, [Out.alertInvalidInput]) := by
  unfold handleSaveChanges
  rw [if_pos h]

/-- C6 witness: drafts `("", "100")` are rejected with the state intact. -/
theorem save_empty_draft_rejected_witness :
    handleSaveChanges
      { allExtractedNumbers := ["36.6", "101.2"]
        displayedNumbers := some ("36.6", "101.2")
        loading := false
        isModifyingNumbers := true
        numberInput1 := ""
        numberInput2 := "100"
        showStartButton := false } =
    ({ allExtractedNumbers := ["36.6", "101.2"]
       displayedNumbers := some ("36.6", "101.2")
       loading := false
       isModifyingNumbers := true
       numberInput1 := ""
       numberInput2 := "100"
       showStartButton := false }, [Out.alertInvalidInput]) :=
  save_empty_draft_rejected _ (Or.inl (by decide))

/-- C7: in any non-loading state whose drafts both trim non-empty,
`Save` succeeds silently and lands in `Ready` with the pair equal to
the trimmed drafts. -/
theorem save_nonempty_drafts_ready (s : ReviewState)
    (h1 : trim s.numberInput1 ≠ "") (h2 : trim s.numberInput2 ≠ "")
    (hload : s.loading = false) :
    handleSaveChanges s =
      ({ s with
          displayedNumbers := some (trim s.numberInput1, trim s.numberInput2)
          isModifyingNumbers := false
          showStartButton := true }, []) ∧
    renderContent (some "img") (handleSaveChanges s).1 =
      Screen.ready (trim s.numberInput1, trim s.numberInput2) := by
  have hsave : handleSaveChanges s =
      ({ s with
          displayedNumbers := some (trim s.numberInput1, trim s.numberInput2)
          isModifyingNumbers := false
          showStartButton := true }, []) := by
    unfold handleSaveChanges
    rw [if_neg]
    push_neg
    exact ⟨h1, h2⟩
  refine ⟨hsave, ?_⟩
  rw [hsave]
  simp [renderContent, hload]

/-- C7 witness: drafts `(" 10 ", "20")` save to `Ready(("10", "20"))`. -/
theorem save_nonempty_drafts_ready_witness :
    handleSaveChanges
      { allExtractedNumbers := ["36.6", "101.2"]
        displayedNumbers := some ("36.6", "101.2")
        loading := false
        isModifyingNumbers := true
        numberInput1 := " 10 "
        numberInput2 := "20"
        showStartButton := false } =
    ({ allExtractedNumbers := ["36.6", "101.2"]
       displayedNumbers := some ("10", "20")
       loading := false
       isModifyingNumbers := false
       numberInput1 := " 10 "
       numberInput2 := "20"
       showStartButton := true }, []) :=
  (save_nonempty_drafts_ready _ (by decide) (by decide) rfl).1

/-- C8: from any non-loading state displaying `pair`, `Modify` seeds
both drafts from `pair` and shows the editing screen; after arbitrary
edits to the drafts, `Cancel` shows `AwaitingDecision` with the
original pair unchanged. -/
theorem modify_seeds_and_cancel_restores (s : ReviewState) (p1 p2 e1 e2 : String)
    (hd : s.displayedNumbers = some (p1, p2)) (hload : s.loading = false) :
    (handleModifyNumbers s).numberInput1 = p1 ∧
    (handleModifyNumbers s).numberInput2 = p2 ∧
    renderContent (some "img") (handleModifyNumbers s) = Screen.modifying p1 p2 ∧
    (handleCancelModification
        (setNumberInput2 e2 (setNumberInput1 e1 (handleModifyNumbers s)))).displayedNumbers =
      some (p1, p2) ∧
    renderContent (some "img")
        (handleCancelModification
          (setNumberInput2 e2 (setNumberInput1 e1 (handleModifyNumbers s)))) =
      Screen.awaitingDecision (p1, p2) := by
  unfold handleModifyNumbers
  rw [hd]
  refine ⟨rfl, rfl, ?_, rfl, ?_⟩
  · simp [renderContent, hload, hd]
  · simp [renderContent, handleCancelModification, setNumberInput1, setNumberInput2,
      hload, hd]

/-- C8 witness: `AwaitingDecision(("36.6", "101.2"))`, `Modify`, edits
`("40", "99")`, then `Cancel` restores the original pair. -/
theorem modify_seeds_and_cancel_restores_witness :
    renderContent (some "img")
        (handleCancelModification
          (setNumberInput2 "99" (setNumberInput1 "40"
            (handleModifyNumbers
              { allExtractedNumbers := ["36.6", "101.2"]
                displayedNumbers := some ("36.6", "101.2")
                loading := false
                isModifyingNumbers := false
                numberInput1 := ""
                numberInput2 := ""
                showStartButton := false })))) =
      Screen.awaitingDecision ("36.6", "101.2") :=
  (modify_seeds_and_cancel_restores _ "36.6" "101.2" "40" "99" rfl rfl).2.2.2.2

/-- C9 counterexample: a pipeline run that succeeds with zero numeric
tokens does not land on the insufficient-results screen: it lands back
on the process prompt, whose `Process Image` button is a retry within
the same cycle. -/
theorem zero_tokens_allows_retry :
    renderContent (some "img")
        ((handleProcessImageComplete (Except.ok [])
          (handleProcessImageStart (some "img") initState).1).1) = Screen.processPrompt ∧
    (handleProcessImageComplete (Except.ok [])
        (handleProcessImageStart (some "img") initState).1).2 =
      [Out.alertExtractionFailed, Out.processReset] ∧
    ∀ n : Nat, Screen.processPrompt ≠ Screen.insufficient n :=
  ⟨rfl, rfl, fun _ h => Screen.noConfusion h⟩

/-- C9 amended: a successful run with fewer than two tokens clears the
pair and notifies `onProcessReset`; with exactly one token the machine
shows the insufficient-results screen, which offers no retry; with zero
tokens it returns to the process prompt, where processing can be
retried within the cycle. -/
theorem insufficient_results_behaviour (s : ReviewState) (ns : List String)
    (h : ns.length < 2) :
    (handleProcessImageComplete (Except.ok ns) s).2 =
      [Out.alertExtractionFailed, Out.processReset] ∧
    ((handleProcessImageComplete (Except.ok ns) s).1).displayedNumbers = none ∧
    (ns.length = 1 →
      renderContent (some "img") ((handleProcessImageComplete (Except.ok ns) s).1) =
        Screen.insufficient 1) ∧
    (ns = [] →
      renderContent (some "img") ((handleProcessImageComplete (Except.ok ns) s).1) =
        Screen.processPrompt) := by
  rcases ns with _ | ⟨a, ns⟩
  · refine ⟨rfl, rfl, ?_, ?_⟩
    · intro h1; cases h1
    · intro _
      simp [handleProcessImageComplete, renderContent]
  · rcases ns with _ | ⟨b, ns⟩
    · refine ⟨rfl, rfl, ?_, ?_⟩
      · intro _
        simp [handleProcessImageComplete, renderContent]
      · intro h0; cases h0
    · exact absurd h (by simp)

/-- C9 witness: a run producing only `["36.6"]` shows the terminal
insufficient-results screen. -/
theorem insufficient_results_behaviour_witness :
    renderContent (some "img")
        ((handleProcessImageComplete (Except.ok ["36.6"]) initState).1) =
      Screen.insufficient 1 :=
  (insufficient_results_behaviour initState ["36.6"] (by decide)).2.2.1 rfl

/-- C10: when no pair is displayed, the `Modify`, `Accept` and `Start`
events are handled totally and ignored: the state is unchanged and no
callback or alert is emitted. -/
theorem no_pair_events_ignored (s : ReviewState) (h : s.displayedNumbers = none) :
    step UEvent.modify s = (s, []) ∧
    step UEvent.accept s = (s, []) ∧
    step UEvent.start s = (s, []) := by
  refine ⟨?_, ?_, ?_⟩ <;>
    simp [step, handleModifyNumbers, handleAcceptNumbers, handleStart, h]

/-- C10 witness: the three events are ignored in the initial state. -/
theorem no_pair_events_ignored_witness :
    step UEvent.start initState = (initState, []) :=
  (no_pair_events_ignored initState rfl).2.2

end ThermoMater
